import Mathlib

/-!
# The SQLite dialect of `schema` (src/sqlite.go)

A shallow embedding of `sqliteDialect` and of the properties of its four
operations `CreateSQL`, `InsertSQL`, `GetAppliedMigrations` and
`QuotedTableName`.

A Go `string` is a sequence of bytes and is modelled as a list of naturals, a
`rune` as a natural.  The pieces of the Go language and standard library the
dialect relies on (`for range` over a string, `unicode.IsSpace`,
`strings.Builder`, `fmt.Sprintf`, `fmt.Errorf`, `*sql.Rows`) are modelled after
their documented behaviour, bit operations as the equal arithmetic on naturals.
A call of `GetAppliedMigrations` is a function from the handle to what the call
returns together with the trace of the calls it made on the handle and on the
cursor.
-/

set_option autoImplicit false
set_option maxRecDepth 8000

namespace Schema


/-! ## Go strings, runes and UTF-8 -/

/-- A Go `string`: an immutable sequence of bytes, a byte being a natural below
256.  The functions below are defined on all lists of naturals. -/
abbrev GoString := List Nat

/-- The bytes of an ASCII source literal. -/
def lit (s : String) : GoString := s.toList.map Char.toNat

/-- `utf8.RuneError`, the replacement character U+FFFD. -/
def RuneError : Nat := 0xFFFD

/-- The byte `'"'`. -/
def dquote : Nat := 0x22

/-- The byte `';'`. -/
def semicolon : Nat := 0x3B

/-- The `first` table of package `utf8` with its `acceptRanges` entry resolved,
for a non-ASCII leading byte: the length of the sequence it starts and the
range accepted for the second byte; `none` for a byte that starts nothing. -/
def first (b : Nat) : Option (Nat × Nat × Nat) :=
  if b < 0xC2 then none
  else if b ≤ 0xDF then some (2, 0x80, 0xBF)
  else if b = 0xE0 then some (3, 0xA0, 0xBF)
  else if b ≤ 0xEC then some (3, 0x80, 0xBF)
  else if b = 0xED then some (3, 0x80, 0x9F)
  else if b ≤ 0xEF then some (3, 0x80, 0xBF)
  else if b = 0xF0 then some (4, 0x90, 0xBF)
  else if b ≤ 0xF3 then some (4, 0x80, 0xBF)
  else if b = 0xF4 then some (4, 0x80, 0x8F)
  else none

/-- The function `utf8.DecodeRuneInString`: the first rune of `s` and its width
in bytes; `(RuneError, 1)` for an invalid encoding, `(RuneError, 0)` for the
empty string.  `x & mask` is `x % 2^k` and `<< 6 |` is `* 64 +`. -/
def DecodeRuneInString (s : GoString) : Nat × Nat :=
  match s with
  | [] => (RuneError, 0)
  | s0 :: rest =>
    if s0 < 0x80 then (s0, 1)
    else match first s0 with
      | none => (RuneError, 1)
      | some (sz, lo, hi) =>
        if rest.length + 1 < sz then (RuneError, 1)
        else match rest with
          | [] => (RuneError, 1)
          | s1 :: rest1 =>
            if s1 < lo ∨ hi < s1 then (RuneError, 1)
            else if sz ≤ 2 then ((s0 % 32) * 64 + s1 % 64, 2)
            else match rest1 with
              | [] => (RuneError, 1)
              | s2 :: rest2 =>
                if s2 < 0x80 ∨ 0xBF < s2 then (RuneError, 1)
                else if sz ≤ 3 then ((s0 % 16) * 4096 + (s1 % 64) * 64 + s2 % 64, 3)
                else match rest2 with
                  | [] => (RuneError, 1)
                  | s3 :: _ =>
                    if s3 < 0x80 ∨ 0xBF < s3 then (RuneError, 1)
                    else ((s0 % 8) * 262144 + (s1 % 64) * 4096 + (s2 % 64) * 64 + s3 % 64, 4)

/-- The runes of `for _, r := range s`, in order.  At each position the loop
decodes one rune of width `w` and resumes `w` bytes further; `skip` counts the
bytes of the current rune still to be passed over. -/
def rangeRunes : Nat → GoString → List Nat
  | _, [] => []
  | 0, b :: rest => (DecodeRuneInString (b :: rest)).1 ::
      rangeRunes ((DecodeRuneInString (b :: rest)).2 - 1) rest
  | k + 1, _ :: rest => rangeRunes k rest

/-- The runes a `for range` loop over `s` yields. -/
def runes (s : GoString) : List Nat := rangeRunes 0 s

/-- The function `unicode.IsSpace`: the Latin-1 spaces `'\t'`, `'\n'`, `'\v'`,
`'\f'`, `'\r'`, `' '`, U+0085, U+00A0, and above Latin-1 the `White_Space`
table. -/
def IsSpace (r : Nat) : Bool :=
  if r ≤ 0xFF then
    decide (r = 0x09 ∨ r = 0x0A ∨ r = 0x0B ∨ r = 0x0C ∨ r = 0x0D ∨ r = 0x20 ∨ r = 0x85 ∨ r = 0xA0)
  else
    decide (r = 0x1680 ∨ (0x2000 ≤ r ∧ r ≤ 0x200A) ∨ r = 0x2028 ∨ r = 0x2029 ∨ r = 0x202F ∨
      r = 0x205F ∨ r = 0x3000)

/-- The bytes `utf8.AppendRune` appends for `r`: its UTF-8 encoding, and the
encoding of `RuneError` for a surrogate or a value above `utf8.MaxRune`.
`t | byte(r >> k) & maskx` is `t + (r / 2^k) % 64`. -/
def AppendRune (r : Nat) : GoString :=
  if r ≤ 0x7F then [r]
  else if r ≤ 0x7FF then [0xC0 + r / 64, 0x80 + r % 64]
  else if 0x10FFFF < r ∨ (0xD800 ≤ r ∧ r ≤ 0xDFFF) then [0xEF, 0xBF, 0xBD]
  else if r ≤ 0xFFFF then [0xE0 + r / 4096, 0x80 + (r / 64) % 64, 0x80 + r % 64]
  else [0xF0 + r / 262144, 0x80 + (r / 4096) % 64, 0x80 + (r / 64) % 64, 0x80 + r % 64]

/-! ## QuotedTableName -/

/-- One iteration of the loop of `QuotedTableName` on the builder `sb`. -/
def quoteStep (sb : GoString) (r : Nat) : GoString :=
  if IsSpace r then sb
  else if r = dquote then sb ++ [dquote, dquote]
  else if r = semicolon then sb
  else sb ++ AppendRune r

/-- The method `sqliteDialect.QuotedTableName`. -/
def QuotedTableName (schemaName tableName : GoString) : GoString :=
  let ident := schemaName ++ tableName
  if ident = [] then []
  else
    let sb : GoString := [dquote]
    let sb := (runes ident).foldl quoteStep sb
    sb ++ [dquote]

/-! ## Notions the properties of the quoter are stated with -/

/-- A Unicode scalar value: at most U+10FFFF and not a surrogate. -/
def IsScalar (r : Nat) : Prop := r ≤ 0x10FFFF ∧ ¬ (0xD800 ≤ r ∧ r ≤ 0xDFFF)

/-- The output of the quoter without its first and its last byte. -/
def inner (out : GoString) : GoString := (out.drop 1).dropLast

/-- The lengths of the maximal runs of consecutive bytes `q` in a string, in
order; `n` is the length of the run in progress. -/
def runLengths (q : Nat) : Nat → GoString → List Nat
  | n, [] => if n = 0 then [] else [n]
  | n, b :: bs =>
    if b = q then runLengths q (n + 1) bs
    else (if n = 0 then [] else [n]) ++ runLengths q 0 bs

/-- A character the quoter keeps: neither whitespace nor `';'`. -/
def kept (r : Nat) : Bool := !IsSpace r && !decide (r = semicolon)

/-- What the quoter writes for a kept character. -/
def escaped (r : Nat) : GoString := if r = dquote then [dquote, dquote] else AppendRune r

/-- The replacement `f(c)` of one character in the described quoter: nothing
for whitespace and for `';'`, two quotes for a quote, the character itself
otherwise. -/
def quoteChar (c : Nat) : GoString :=
  if IsSpace c = true ∨ c = semicolon then []
  else if c = dquote then [dquote, dquote]
  else AppendRune c

/-- The described quoter on a non-empty identifier: a quote, the replacements
of its characters in order, a quote. -/
def QuotedTableNameRef (ident : GoString) : GoString :=
  [dquote] ++ (runes ident).flatMap quoteChar ++ [dquote]

/-- Collapse each pair of quotes to one quote, left to right. -/
def unescape : GoString → GoString
  | [] => []
  | [a] => [a]
  | a :: b :: rest =>
    if a = dquote ∧ b = dquote then dquote :: unescape rest
    else a :: unescape (b :: rest)

/-- The bytes of a string that belong to neither a whitespace character nor a
`';'`, every other byte as it is: `k` bytes of the current character are still
to come and `keep` tells whether that character stays. -/
def deleteFrom : Nat → Bool → GoString → GoString
  | _, _, [] => []
  | 0, _, b :: rest =>
    (if kept (DecodeRuneInString (b :: rest)).1 then [b] else []) ++
      deleteFrom ((DecodeRuneInString (b :: rest)).2 - 1)
        (kept (DecodeRuneInString (b :: rest)).1) rest
  | k + 1, keep, b :: rest => (if keep then [b] else []) ++ deleteFrom k keep rest

/-- A string with its whitespace characters and semicolons deleted and
everything else unchanged. -/
def deleteSpaceSemi (s : GoString) : GoString := deleteFrom 0 true s

/-- The function `utf8.ValidString` from position `k` bytes before the next
character: no decoding step meets an invalid encoding. -/
def validFrom : Nat → GoString → Bool
  | _, [] => true
  | 0, b :: rest =>
    !(DecodeRuneInString (b :: rest) == (RuneError, 1)) &&
      validFrom ((DecodeRuneInString (b :: rest)).2 - 1) rest
  | k + 1, _ :: rest => validFrom k rest

/-- The function `utf8.ValidString`: the string consists entirely of valid
UTF-8 encodings. -/
def ValidString (s : GoString) : Bool := validFrom 0 s

/-! ## Errors, times and the ledger record -/

/-- A Go `error` value that is not nil: one made elsewhere, known by its
message, or a `*fmt.wrapError`, which `fmt.Errorf` makes for a format with
`%w`. -/
inductive GoError where
  | leaf (msg : GoString)
  | wrapError (msg : GoString) (err : GoError)
  deriving DecidableEq

/-- The method `Error()`. -/
def GoError.Error : GoError → GoString
  | .leaf msg => msg
  | .wrapError msg _ => msg

/-- The function `errors.Unwrap`. -/
def GoError.Unwrap : GoError → Option GoError
  | .leaf _ => none
  | .wrapError _ err => some err

/-- A `*time.Location`. -/
inductive Location where
  | Local
  | UTC
  | Fixed (offsetSeconds : Int)
  deriving DecidableEq

/-- A `time.Time`: an instant, in nanoseconds since the epoch, and the location
it is expressed in. -/
structure Time where
  instant : Int
  loc : Location
  deriving DecidableEq

/-- The method `Time.In`: the same instant in another location. -/
def Time.In (t : Time) (loc : Location) : Time := { t with loc := loc }

/-- Modelled from the spec: the type `AppliedMigration` is declared outside
src/sqlite.go; the spec's data model gives it the four fields `ID`, `Checksum`,
`ExecutionTimeInMillis` and `AppliedAt`. -/
structure AppliedMigration where
  ID : GoString
  Checksum : GoString
  ExecutionTimeInMillis : Int
  AppliedAt : Time
  deriving DecidableEq

/-- A Go slice value: `none` is the nil slice. -/
abbrev Slice (α : Type) := Option (List α)

/-- The call `make([]T, 0)`. -/
def Slice.make {α : Type} : Slice α := some []

/-- The builtin `append(s, x)`. -/
def Slice.append {α : Type} (s : Slice α) (x : α) : Slice α :=
  match s with
  | none => some [x]
  | some xs => some (xs ++ [x])

/-! ## The handle and its cursor -/

/-- What `Scan` does on one row of a cursor: it fills the four destinations or
returns an error. -/
inductive ScanResult where
  | ok (row : AppliedMigration)
  | fail (e : GoError)
  deriving DecidableEq

/-- A `*sql.Rows` cursor: the rows it delivers, in order, and the error `Err()`
reports once `Next()` has returned false. -/
structure Rows where
  rows : List ScanResult
  iterErr : Option GoError
  deriving DecidableEq

/-- Modelled from the spec: the interface `Queryer` is declared outside
src/sqlite.go; the spec gives it the single operation that executes a read
query with a SQL string and returns a row cursor or an error. -/
structure Queryer where
  Query : GoString → Except GoError Rows

/-- A call made on the handle or on the cursor it returned. -/
inductive Event where
  | query (sql : GoString)
  | next
  | scan
  | close
  deriving DecidableEq

/-- What a call of `GetAppliedMigrations` returns, and the calls it made. -/
structure Outcome where
  migrations : Slice AppliedMigration
  err : Option GoError
  trace : List Event
  deriving DecidableEq

/-! ## The statements -/

/-- The method `sqliteDialect.CreateSQL`. -/
def CreateSQL (tableName : GoString) : GoString :=
  lit "\n\t\tCREATE TABLE IF NOT EXISTS " ++ tableName ++
  lit " (\n\t\t\tid TEXT NOT NULL,\n\t\t\tchecksum TEXT NOT NULL DEFAULT '',\n\t\t\texecution_time_in_millis INTEGER NOT NULL DEFAULT 0,\n\t\t\tapplied_at DATETIME\n\t\t);"

/-- The method `sqliteDialect.InsertSQL`. -/
def InsertSQL (tableName : GoString) : GoString :=
  lit "\n\t\tINSERT INTO " ++ tableName ++
  lit "\n\t\t( id, checksum, execution_time_in_millis, applied_at )\n\t\tVALUES\n\t\t( ?, ?, ?, ? )\n\t\t"

/-- The text `GetAppliedMigrations` passes to `Query`. -/
def selectSQL (tableName : GoString) : GoString :=
  lit "\n\t\tSELECT id, checksum, execution_time_in_millis, applied_at\n\t\tFROM " ++ tableName ++
  lit "\n\t\tORDER BY id ASC\n\t"

/-- The byte `'?'`. -/
def qmark : Nat := 0x3F

/-- The byte `','`. -/
def comma : Nat := 0x2C

/-- The error `GetAppliedMigrations` makes from a `Scan` error with
`fmt.Errorf` and `%w`. -/
def scanError (tableName : GoString) (err : GoError) : GoError :=
  .wrapError
    (lit "Failed to GetAppliedMigrations. Did somebody change the structure of the " ++
      tableName ++ lit " table?: " ++ err.Error)
    err

/-! ## GetAppliedMigrations -/

/-- The loop `for rows.Next() { ... }` of `GetAppliedMigrations` and the
`return migrations, err` after it, on the rows the cursor has yet to deliver;
`err` is the named result, `trace` the calls made so far. -/
def scanRows (tableName : GoString) :
    List ScanResult → Slice AppliedMigration → Option GoError → List Event → Outcome
  | [], migrations, err, trace =>
    { migrations := migrations, err := err, trace := trace ++ [Event.next] }
  | ScanResult.fail e :: _, migrations, _, trace =>
    { migrations := migrations, err := some (scanError tableName e),
      trace := trace ++ [Event.next, Event.scan] }
  | ScanResult.ok migration :: rest, migrations, _, trace =>
    scanRows tableName rest
      (migrations.append { migration with AppliedAt := migration.AppliedAt.In Location.Local })
      none (trace ++ [Event.next, Event.scan])

/-- The method `sqliteDialect.GetAppliedMigrations`; the deferred
`rows.Close()` runs as the function returns. -/
def GetAppliedMigrations (tx : Queryer) (tableName : GoString) : Outcome :=
  let migrations : Slice AppliedMigration := Slice.make
  let query := selectSQL tableName
  match tx.Query query with
  | .error err => { migrations := migrations, err := some err, trace := [Event.query query] }
  | .ok rows =>
    let out := scanRows tableName rows.rows migrations none [Event.query query]
    { out with trace := out.trace ++ [Event.close] }

/-! ## UTF-8 decoding and encoding -/

theorem rangeRunes_eq_drop (k : Nat) (s : GoString) :
    rangeRunes k s = runes (s.drop k) := by
  induction s generalizing k with
  | nil => simp [rangeRunes, runes]
  | cons b rest ih =>
    cases k with
    | zero => simp [runes]
    | succ k => simp [rangeRunes, ih]

theorem runes_nil : runes [] = [] := rfl

theorem runes_cons (b : Nat) (rest : GoString) :
    runes (b :: rest) = (DecodeRuneInString (b :: rest)).1 ::
      runes (rest.drop ((DecodeRuneInString (b :: rest)).2 - 1)) := by
  show rangeRunes 0 (b :: rest) = _
  rw [rangeRunes, rangeRunes_eq_drop]

theorem decode_ascii (s0 : Nat) (rest : GoString) (h : s0 < 0x80) :
    DecodeRuneInString (s0 :: rest) = (s0, 1) := by
  simp [DecodeRuneInString, h]

/-- The entries of the `first` table by length of sequence. -/
theorem first_some (b sz lo hi : Nat) (h : first b = some (sz, lo, hi)) :
    0x80 ≤ lo ∧ hi ≤ 0xBF ∧
    ((sz = 2 ∧ lo = 0x80 ∧ hi = 0xBF ∧ 0xC2 ≤ b ∧ b ≤ 0xDF) ∨
     (sz = 3 ∧ 0xE0 ≤ b ∧ b ≤ 0xEF ∧ (b = 0xE0 → lo = 0xA0) ∧ (b = 0xED → hi = 0x9F)) ∨
     (sz = 4 ∧ 0xF0 ≤ b ∧ b ≤ 0xF4 ∧ (b = 0xF0 → lo = 0x90) ∧ (b = 0xF4 → hi = 0x8F))) := by
  unfold first at h
  split_ifs at h <;> simp only [Option.some.injEq, Prod.mk.injEq] at h <;>
    obtain ⟨rfl, rfl, rfl⟩ := h <;> omega

/-- What a decoding step yields: a width within the string, only continuation
bytes passed over, an ASCII byte read as itself, anything else read as a
scalar value from U+0080 up. -/
theorem decode_inv (s0 : Nat) (rest : GoString) :
    1 ≤ (DecodeRuneInString (s0 :: rest)).2 ∧
    (DecodeRuneInString (s0 :: rest)).2 ≤ rest.length + 1 ∧
    (∀ b ∈ rest.take ((DecodeRuneInString (s0 :: rest)).2 - 1), 0x80 ≤ b ∧ b ≤ 0xBF) ∧
    (s0 < 0x80 → (DecodeRuneInString (s0 :: rest)).1 = s0) ∧
    (0x80 ≤ s0 → 0x80 ≤ (DecodeRuneInString (s0 :: rest)).1) ∧
    IsScalar (DecodeRuneInString (s0 :: rest)).1 := by
  unfold IsScalar
  by_cases h0 : s0 < 0x80
  · rw [decode_ascii s0 rest h0]; simp; omega
  · rcases hf : first s0 with _ | ⟨sz, lo, hi⟩
    · simp [DecodeRuneInString, hf, h0, RuneError]
    · have hs := first_some s0 sz lo hi hf
      rcases rest with _ | ⟨s1, _ | ⟨s2, _ | ⟨s3, r3⟩⟩⟩ <;>
        simp only [DecodeRuneInString, hf, h0, RuneError, if_false] <;>
        split_ifs <;>
        simp only [List.take, List.length, List.mem_cons, List.not_mem_nil, forall_eq_or_imp,
          Nat.reduceSub, Nat.reduceAdd, false_imp_iff, imp_true_iff, forall_const, true_and,
          and_true, or_false, forall_eq] <;>
        omega

/-- Induction along the positions a `for range` loop visits. -/
theorem range_induction {P : GoString → Prop} (nil : P [])
    (cons : ∀ b rest, P (rest.drop ((DecodeRuneInString (b :: rest)).2 - 1)) → P (b :: rest))
    (s : GoString) : P s := by
  generalize h : s.length = n
  induction n using Nat.strong_induction_on generalizing s with
  | _ n ih =>
    cases s with
    | nil => exact nil
    | cons b rest =>
      apply cons
      refine ih _ ?_ _ rfl
      simp only [List.length_cons] at h
      simp only [List.length_drop]
      omega

theorem decode2 (s0 s1 : Nat) (rest : GoString) (h0 : 0xC2 ≤ s0) (h0' : s0 ≤ 0xDF)
    (h1 : 0x80 ≤ s1) (h1' : s1 ≤ 0xBF) :
    DecodeRuneInString (s0 :: s1 :: rest) = ((s0 % 32) * 64 + s1 % 64, 2) := by
  have hf : first s0 = some (2, 0x80, 0xBF) := by
    unfold first; split_ifs <;> first | rfl | omega
  have hn : ¬ (s0 < 0x80) := by omega
  have hr : ¬ (s1 < 0x80 ∨ 0xBF < s1) := by omega
  simp [DecodeRuneInString, hf, hn, hr]

theorem decode3 (s0 s1 s2 lo hi : Nat) (rest : GoString) (hf : first s0 = some (3, lo, hi))
    (h1 : lo ≤ s1) (h1' : s1 ≤ hi) (h2 : 0x80 ≤ s2) (h2' : s2 ≤ 0xBF) :
    DecodeRuneInString (s0 :: s1 :: s2 :: rest) =
      ((s0 % 16) * 4096 + (s1 % 64) * 64 + s2 % 64, 3) := by
  have hn : ¬ (s0 < 0x80) := by
    have := first_some s0 3 lo hi hf; omega
  have hr : ¬ (s1 < lo ∨ hi < s1) := by omega
  have hr2 : ¬ (s2 < 0x80 ∨ 0xBF < s2) := by omega
  simp [DecodeRuneInString, hf, hn, hr, hr2]

theorem decode4 (s0 s1 s2 s3 lo hi : Nat) (rest : GoString)
    (hf : first s0 = some (4, lo, hi))
    (h1 : lo ≤ s1) (h1' : s1 ≤ hi) (h2 : 0x80 ≤ s2) (h2' : s2 ≤ 0xBF)
    (h3 : 0x80 ≤ s3) (h3' : s3 ≤ 0xBF) :
    DecodeRuneInString (s0 :: s1 :: s2 :: s3 :: rest) =
      ((s0 % 8) * 262144 + (s1 % 64) * 4096 + (s2 % 64) * 64 + s3 % 64, 4) := by
  have hn : ¬ (s0 < 0x80) := by
    have := first_some s0 4 lo hi hf; omega
  have hr : ¬ (s1 < lo ∨ hi < s1) := by omega
  have hr2 : ¬ (s2 < 0x80 ∨ 0xBF < s2) := by omega
  have hr3 : ¬ (s3 < 0x80 ∨ 0xBF < s3) := by omega
  simp [DecodeRuneInString, hf, hn, hr, hr2, hr3]

theorem runes_ascii_cons (b : Nat) (rest : GoString) (h : b < 0x80) :
    runes (b :: rest) = b :: runes rest := by
  rw [runes_cons, decode_ascii b rest h]; simp

/-- A `for range` loop yields Unicode scalar values only. -/
theorem runes_scalar (s : GoString) : ∀ r ∈ runes s, IsScalar r := by
  induction s using range_induction with
  | nil => simp [runes_nil]
  | cons b rest ih =>
    intro r hr
    rw [runes_cons] at hr
    rcases List.mem_cons.1 hr with rfl | hr
    · exact (decode_inv b rest).2.2.2.2.2
    · exact ih r hr

/-- An ASCII character occurs as often among the runes as among the bytes. -/
theorem count_runes_ascii (a : Nat) (ha : a < 0x80) (s : GoString) :
    (runes s).count a = s.count a := by
  induction s using range_induction with
  | nil => simp [runes_nil]
  | cons b rest ih =>
    obtain ⟨_, _, hc, hlt, hge, _⟩ := decode_inv b rest
    rw [runes_cons, List.count_cons, List.count_cons, ih]
    have hsplit := List.take_append_drop ((DecodeRuneInString (b :: rest)).2 - 1) rest
    have htake : (rest.take ((DecodeRuneInString (b :: rest)).2 - 1)).count a = 0 := by
      rw [List.count_eq_zero]
      intro hmem
      have := (hc a hmem).1
      omega
    have hcount : rest.count a =
        (rest.drop ((DecodeRuneInString (b :: rest)).2 - 1)).count a := by
      conv_lhs => rw [← hsplit]
      rw [List.count_append, htake, Nat.zero_add]
    rw [hcount]
    congr 1
    by_cases hb : b < 0x80
    · rw [hlt hb]
    · have h1 := hge (by omega)
      have e1 : ((DecodeRuneInString (b :: rest)).1 == a) = false := by
        simp only [beq_eq_false_iff_ne, ne_eq]; omega
      have e2 : (b == a) = false := by
        simp only [beq_eq_false_iff_ne, ne_eq]; omega
      rw [e1, e2]

/-- The bytes written for a rune: an ASCII rune as itself, any other as bytes
from 0x80 up. -/
theorem AppendRune_bytes (r : Nat) :
    ∀ b ∈ AppendRune r, (r ≤ 0x7F ∧ b = r) ∨ (0x7F < r ∧ 0x80 ≤ b ∧ b < 256) := by
  intro b hb
  unfold AppendRune at hb
  split_ifs at hb <;>
    simp only [List.mem_cons, List.not_mem_nil, or_false] at hb <;>
    omega

theorem first_three (b : Nat) (h : 0xE0 ≤ b) (h' : b ≤ 0xEF) :
    first b = some (3, if b = 0xE0 then 0xA0 else 0x80, if b = 0xED then 0x9F else 0xBF) := by
  unfold first
  split_ifs <;> first | rfl | omega

theorem first_four (b : Nat) (h : 0xF0 ≤ b) (h' : b ≤ 0xF4) :
    first b = some (4, if b = 0xF0 then 0x90 else 0x80, if b = 0xF4 then 0x8F else 0xBF) := by
  unfold first
  split_ifs <;> first | rfl | omega

/-- Decoding what `AppendRune` wrote for a scalar value gives it back. -/
theorem runes_AppendRune_append (r : Nat) (hr : IsScalar r) (rest : GoString) :
    runes (AppendRune r ++ rest) = r :: runes rest := by
  unfold IsScalar at hr
  unfold AppendRune
  split_ifs with h1 h2 h3 h4
  · exact runes_ascii_cons r rest (by omega)
  · rw [List.cons_append, runes_cons, List.cons_append, List.nil_append,
      decode2 _ _ rest (by omega) (by omega) (by omega) (by omega)]
    simp only [Nat.add_one_sub_one, List.drop_succ_cons, List.drop_zero, List.cons.injEq,
      and_true]
    omega
  · omega
  · have hf := first_three (0xE0 + r / 4096) (by omega) (by omega)
    rw [List.cons_append, runes_cons, List.cons_append, List.cons_append, List.nil_append,
      decode3 _ _ _ _ _ rest hf (by split_ifs <;> omega) (by split_ifs <;> omega)
        (by omega) (by omega)]
    simp only [Nat.add_one_sub_one, List.drop_succ_cons, List.drop_zero, List.cons.injEq,
      and_true]
    omega
  · have hf := first_four (0xF0 + r / 262144) (by omega) (by omega)
    rw [List.cons_append, runes_cons, List.cons_append, List.cons_append, List.cons_append,
      List.nil_append,
      decode4 _ _ _ _ _ _ rest hf (by split_ifs <;> omega) (by split_ifs <;> omega)
        (by omega) (by omega) (by omega) (by omega)]
    simp only [Nat.add_one_sub_one, List.drop_succ_cons, List.drop_zero, List.cons.injEq,
      and_true]
    omega

theorem decode_encode (s0 : Nat) (rest : GoString) :
    DecodeRuneInString (s0 :: rest) = (RuneError, 1) ∨
    AppendRune (DecodeRuneInString (s0 :: rest)).1 =
      (s0 :: rest).take (DecodeRuneInString (s0 :: rest)).2 := by
  by_cases h0 : s0 < 0x80
  · right
    rw [decode_ascii s0 rest h0]
    have : s0 ≤ 0x7F := by omega
    simp [AppendRune, this]
  · rcases hf : first s0 with _ | ⟨sz, lo, hi⟩
    · left; simp [DecodeRuneInString, hf, h0]
    · have hs := first_some s0 sz lo hi hf
      rcases rest with _ | ⟨s1, _ | ⟨s2, _ | ⟨s3, r3⟩⟩⟩ <;>
        simp only [DecodeRuneInString, hf, h0, if_false] <;>
        split_ifs <;>
        first
        | exact Or.inl rfl
        | (right
           simp only [List.take, AppendRune]
           split_ifs <;>
             first
             | omega
             | (simp only [List.cons.injEq, and_true, RuneError]; omega))

/-! ## The quoter -/

theorem quoteStep_append (sb : GoString) (r : Nat) :
    quoteStep sb r = sb ++ quoteStep [] r := by
  unfold quoteStep
  split_ifs <;> simp

theorem foldl_quoteStep (rs : List Nat) (sb : GoString) :
    rs.foldl quoteStep sb = sb ++ (rs.map (quoteStep [])).flatten := by
  induction rs generalizing sb with
  | nil => simp
  | cons r rs ih =>
    rw [List.foldl_cons, ih, quoteStep_append]
    simp [List.append_assoc]

theorem quoteStep_nil (r : Nat) :
    quoteStep [] r = if kept r then escaped r else [] := by
  unfold quoteStep kept escaped
  cases hs : IsSpace r
  · by_cases h2 : r = dquote
    · have h3 : r ≠ semicolon := by rw [h2]; decide
      have h4 : dquote ≠ semicolon := by decide
      simp [h2, h4]
    · by_cases h3 : r = semicolon
      · have h4 : semicolon ≠ dquote := by decide
        simp [h3, h4]
      · simp [h2, h3]
  · simp

theorem flatten_map_quoteStep (rs : List Nat) :
    (rs.map (quoteStep [])).flatten = ((rs.filter kept).map escaped).flatten := by
  induction rs with
  | nil => rfl
  | cons r rs ih =>
    rw [List.map_cons, List.flatten_cons, ih, quoteStep_nil, List.filter_cons]
    split_ifs <;> simp

/-- The shape of the output for a non-empty identifier. -/
theorem QuotedTableName_eq (s t : GoString) (h : s ++ t ≠ []) :
    QuotedTableName s t =
      [dquote] ++ (((runes (s ++ t)).filter kept).map escaped).flatten ++ [dquote] := by
  simp only [QuotedTableName, h, if_false, foldl_quoteStep, flatten_map_quoteStep]

theorem QuotedTableName_empty (s t : GoString) (h : s ++ t = []) :
    QuotedTableName s t = [] := by
  simp [QuotedTableName, h]

theorem inner_QuotedTableName (s t : GoString) (h : s ++ t ≠ []) :
    inner (QuotedTableName s t) = (((runes (s ++ t)).filter kept).map escaped).flatten := by
  rw [QuotedTableName_eq s t h]
  simp [inner]

theorem AppendRune_no_ascii (r a : Nat) (ha : a < 0x80) (hne : r ≠ a) :
    ∀ b ∈ AppendRune r, b ≠ a := by
  intro b hb
  rcases AppendRune_bytes r b hb with ⟨_, rfl⟩ | ⟨_, h, _⟩
  · exact hne
  · omega

theorem runLengths_free (q : Nat) (w X : GoString) (hw : ∀ b ∈ w, b ≠ q) (k : Nat)
    (hk : Even k) (hX : ∀ k', Even k' → ∀ n ∈ runLengths q k' X, Even n) :
    ∀ n ∈ runLengths q k (w ++ X), Even n := by
  induction w generalizing k with
  | nil => exact hX k hk
  | cons b w ih =>
    intro n hn
    have hb : b ≠ q := hw b (List.mem_cons_self _ _)
    rw [List.cons_append, runLengths, if_neg hb, List.mem_append] at hn
    rcases hn with hn | hn
    · split_ifs at hn with h0
      · simp at hn
      · simp only [List.mem_singleton] at hn; rw [hn]; exact hk
    · exact ih (fun b hb => hw b (List.mem_cons_of_mem _ hb)) 0 (by decide) n hn

theorem runLengths_tokens (q : Nat) (toks : List GoString)
    (htok : ∀ w ∈ toks, w = [q, q] ∨ ∀ b ∈ w, b ≠ q) (k : Nat) (hk : Even k) :
    ∀ n ∈ runLengths q k toks.flatten, Even n := by
  induction toks generalizing k with
  | nil =>
    intro n hn
    simp only [List.flatten_nil, runLengths] at hn
    split_ifs at hn
    · simp at hn
    · simp only [List.mem_singleton] at hn; rw [hn]; exact hk
  | cons w toks ih =>
    have ih' := ih (fun w hw => htok w (List.mem_cons_of_mem _ hw))
    rcases htok w (List.mem_cons_self _ _) with rfl | hfree
    · intro n hn
      simp only [List.flatten_cons, List.cons_append, List.nil_append, runLengths, if_true] at hn
      exact ih' (k + 1 + 1) (by rw [Nat.add_assoc]; exact hk.add (by decide)) n hn
    · rw [List.flatten_cons]
      exact runLengths_free q w _ hfree k hk ih'

theorem escaped_token (r : Nat) :
    escaped r = [dquote, dquote] ∨ ∀ b ∈ escaped r, b ≠ dquote := by
  unfold escaped
  split_ifs with h
  · exact Or.inl rfl
  · exact Or.inr (AppendRune_no_ascii r dquote (by decide) h)

/-- Claim C1: for a schema name and a table name whose concatenation is not
empty, the output of `QuotedTableName` without its opening and its closing
quote has no lone quote: every maximal run of consecutive `'"'` in it has even
length, and it splits into tokens that are each the pair `""` or the encoding
of a single character other than `'"'`. -/
theorem QuotedTableName_no_lone_quote (s t : GoString) (h : s ++ t ≠ []) :
    (∀ n ∈ runLengths dquote 0 (inner (QuotedTableName s t)), Even n) ∧
    ∃ toks : List GoString, toks.flatten = inner (QuotedTableName s t) ∧
      ∀ tok ∈ toks, tok = [dquote, dquote] ∨
        ∃ c, c ≠ dquote ∧ IsScalar c ∧ tok = AppendRune c := by
  rw [inner_QuotedTableName s t h]
  constructor
  · apply runLengths_tokens dquote _ _ 0 (by decide)
    intro w hw
    obtain ⟨r, _, rfl⟩ := List.mem_map.1 hw
    exact escaped_token r
  · refine ⟨_, rfl, ?_⟩
    intro tok htok
    obtain ⟨r, hr, rfl⟩ := List.mem_map.1 htok
    have hsc := runes_scalar (s ++ t) r (List.mem_filter.1 hr).1
    unfold escaped
    split_ifs with hq
    · exact Or.inl rfl
    · exact Or.inr ⟨r, hq, hsc, rfl⟩

/-- The property of claim C1 at schema `a"b` and table `c`. -/
theorem QuotedTableName_no_lone_quote_witness :
    lit "a\"b" ++ lit "c" ≠ [] ∧
    (∀ n ∈ runLengths dquote 0 (inner (QuotedTableName (lit "a\"b") (lit "c"))), Even n) ∧
    ∃ toks : List GoString, toks.flatten = inner (QuotedTableName (lit "a\"b") (lit "c")) ∧
      ∀ tok ∈ toks, tok = [dquote, dquote] ∨
        ∃ c, c ≠ dquote ∧ IsScalar c ∧ tok = AppendRune c :=
  ⟨by decide, QuotedTableName_no_lone_quote (lit "a\"b") (lit "c") (by decide)⟩

theorem mem_QuotedTableName (s t : GoString) (b : Nat) (hb : b ∈ QuotedTableName s t) :
    b = dquote ∨ ∃ r ∈ runes (s ++ t), kept r = true ∧ r ≠ dquote ∧ b ∈ AppendRune r := by
  by_cases h : s ++ t = []
  · rw [QuotedTableName_empty s t h] at hb; simp at hb
  · rw [QuotedTableName_eq s t h] at hb
    simp only [List.mem_append, List.mem_singleton, List.mem_flatten, List.mem_map,
      List.mem_filter] at hb
    rcases hb with (hb | ⟨w, ⟨r, ⟨hr, hk⟩, rfl⟩, hbw⟩) | hb
    · exact Or.inl hb
    · unfold escaped at hbw
      split_ifs at hbw with hq
      · simp only [List.mem_cons, List.not_mem_nil, or_false, or_self] at hbw
        exact Or.inl hbw
      · exact Or.inr ⟨r, hr, hk, hq, hbw⟩
    · exact Or.inl hb

/-- Claim C2: for every schema name and table name, the output of
`QuotedTableName` contains no `';'`, neither among its bytes nor among its
characters. -/
theorem QuotedTableName_no_semicolon (s t : GoString) :
    (∀ b ∈ QuotedTableName s t, b ≠ semicolon) ∧
    (∀ r ∈ runes (QuotedTableName s t), r ≠ semicolon) := by
  have hbytes : ∀ b ∈ QuotedTableName s t, b ≠ semicolon := by
    intro b hb
    rcases mem_QuotedTableName s t b hb with rfl | ⟨r, _, hk, _, hbr⟩
    · decide
    · refine AppendRune_no_ascii r semicolon (by decide) ?_ b hbr
      intro hr
      simp [kept, hr] at hk
  refine ⟨hbytes, ?_⟩
  intro r hr hrs
  rw [hrs] at hr
  have h1 : (runes (QuotedTableName s t)).count semicolon = 0 := by
    rw [count_runes_ascii semicolon (by decide), List.count_eq_zero]
    intro hmem
    exact hbytes semicolon hmem rfl
  exact (List.count_eq_zero.1 h1) hr

/-- Claim C3: for a schema name and a table name whose concatenation is not
empty, the output of `QuotedTableName` has length at least 2, begins with `'"'`
and ends with `'"'`; the output is not empty exactly when the concatenation is
not empty. -/
theorem QuotedTableName_delimited (s t : GoString) :
    (s ++ t ≠ [] →
      2 ≤ (QuotedTableName s t).length ∧
      (QuotedTableName s t).head? = some dquote ∧
      (QuotedTableName s t).getLast? = some dquote) ∧
    (QuotedTableName s t ≠ [] ↔ s ++ t ≠ []) := by
  by_cases h : s ++ t = []
  · simp [QuotedTableName_empty s t h, h]
  · rw [QuotedTableName_eq s t h]
    refine ⟨fun _ => ⟨?_, ?_, ?_⟩, ?_⟩
    · simp only [List.length_append, List.length_singleton]; omega
    · rfl
    · exact List.getLast?_concat _
    · simp [h]

/-- The property of claim C3 at schema `main.` and table `t`. -/
theorem QuotedTableName_delimited_witness :
    2 ≤ (QuotedTableName (lit "main.") (lit "t")).length ∧
    (QuotedTableName (lit "main.") (lit "t")).head? = some dquote ∧
    (QuotedTableName (lit "main.") (lit "t")).getLast? = some dquote :=
  (QuotedTableName_delimited (lit "main.") (lit "t")).1 (by decide)

/-- Claim C4: if the concatenation of the schema name and the table name is
the empty string, `QuotedTableName` returns the empty string. -/
theorem QuotedTableName_empty_ident (s t : GoString) (h : s ++ t = []) :
    QuotedTableName s t = [] :=
  QuotedTableName_empty s t h

/-- The property of claim C4 at two empty names. -/
theorem QuotedTableName_empty_ident_witness :
    ([] : GoString) ++ [] = [] ∧ QuotedTableName [] [] = [] :=
  ⟨rfl, QuotedTableName_empty_ident [] [] rfl⟩

theorem runes_escaped (rs : List Nat) (hrs : ∀ r ∈ rs, IsScalar r) (rest : GoString) :
    runes ((rs.map escaped).flatten ++ rest) =
      rs.flatMap (fun r => if r = dquote then [dquote, dquote] else [r]) ++ runes rest := by
  induction rs with
  | nil => simp [List.flatMap]
  | cons r rs ih =>
    have ih' := ih (fun r hr => hrs r (List.mem_cons_of_mem _ hr))
    have hr := hrs r (List.mem_cons_self _ _)
    simp only [List.map_cons, List.flatten_cons, List.flatMap, List.append_assoc] at ih' ⊢
    by_cases hq : r = dquote
    · subst hq
      simp only [escaped, if_true, List.cons_append, List.nil_append]
      rw [runes_ascii_cons _ _ (by decide), runes_ascii_cons _ _ (by decide), ih']
    · simp only [escaped, if_neg hq, List.cons_append, List.nil_append]
      rw [runes_AppendRune_append r hr, ih']

/-- The characters of the output: the kept characters of the identifier, each
quote twice, between two quotes. -/
theorem runes_QuotedTableName (s t : GoString) (h : s ++ t ≠ []) :
    runes (QuotedTableName s t) =
      dquote :: (((runes (s ++ t)).filter kept).flatMap
        (fun r => if r = dquote then [dquote, dquote] else [r]) ++ [dquote]) := by
  rw [QuotedTableName_eq s t h, List.append_assoc, List.singleton_append,
    runes_ascii_cons _ _ (by decide), runes_escaped]
  · rw [runes_ascii_cons _ _ (by decide), runes_nil]
  · intro r hr
    exact runes_scalar (s ++ t) r (List.mem_filter.1 hr).1

/-- Claim C5: for every schema name and table name, no character of the output
of `QuotedTableName` is whitespace in the sense of `unicode.IsSpace`; schema
`my db` and table `t` give `mydbt` between the quotes. -/
theorem QuotedTableName_no_space (s t : GoString) :
    (∀ r ∈ runes (QuotedTableName s t), IsSpace r = false) ∧
    QuotedTableName (lit "my db") (lit "t") = lit "\"mydbt\"" := by
  refine ⟨?_, by decide⟩
  by_cases h : s ++ t = []
  · simp [QuotedTableName_empty s t h, runes_nil]
  · rw [runes_QuotedTableName s t h]
    intro r hr
    simp only [List.mem_cons, List.mem_append, List.mem_flatMap, List.mem_filter,
      List.not_mem_nil, or_false] at hr
    rcases hr with rfl | ⟨c, ⟨_, hk⟩, hc⟩ | rfl
    · decide
    · split_ifs at hc with hq
      · simp only [List.mem_cons, List.not_mem_nil, or_false, or_self] at hc
        rw [hc]; decide
      · simp only [List.mem_singleton] at hc
        rw [hc]
        simp only [kept, Bool.and_eq_true, Bool.not_eq_true'] at hk
        exact hk.1
    · decide

theorem count_escaped (rs : List Nat) :
    ((rs.map escaped).flatten).count dquote = 2 * rs.count dquote := by
  induction rs with
  | nil => rfl
  | cons r rs ih =>
    rw [List.map_cons, List.flatten_cons, List.count_append, ih, List.count_cons]
    by_cases hq : r = dquote
    · subst hq
      simp [escaped]
      omega
    · have h0 : (escaped r).count dquote = 0 := by
        rw [List.count_eq_zero]
        intro hmem
        simp only [escaped, if_neg hq] at hmem
        exact AppendRune_no_ascii r dquote (by decide) hq dquote hmem rfl
      simp [h0, hq]

theorem kept_dquote : kept dquote = true := by decide

theorem count_filter_kept (rs : List Nat) :
    (rs.filter kept).count dquote = rs.count dquote := by
  induction rs with
  | nil => rfl
  | cons r rs ih =>
    by_cases hq : r = dquote
    · subst hq
      rw [List.filter_cons_of_pos kept_dquote, List.count_cons_self, List.count_cons_self, ih]
    · rw [List.filter_cons]
      split_ifs
      · rw [List.count_cons_of_ne (Ne.symm hq), List.count_cons_of_ne (Ne.symm hq), ih]
      · rw [List.count_cons_of_ne (Ne.symm hq), ih]

/-- Claim C6: for a schema name and a table name whose concatenation is not
empty and holds `k` occurrences of `'"'`, the output of `QuotedTableName` holds
exactly `2 * k + 2` occurrences of `'"'`. -/
theorem QuotedTableName_quotes_doubled (s t : GoString) (h : s ++ t ≠ []) :
    (QuotedTableName s t).count dquote = 2 * (s ++ t).count dquote + 2 := by
  rw [QuotedTableName_eq s t h, List.count_append, List.count_append, count_escaped,
    count_filter_kept, count_runes_ascii dquote (by decide)]
  simp
  omega

/-- The property of claim C6 at schema `a"` and table `"b" c`. -/
theorem QuotedTableName_quotes_doubled_witness :
    lit "a\"" ++ lit "\"b\" c" ≠ [] ∧
    (QuotedTableName (lit "a\"") (lit "\"b\" c")).count dquote =
      2 * (lit "a\"" ++ lit "\"b\" c").count dquote + 2 :=
  ⟨by decide, QuotedTableName_quotes_doubled (lit "a\"") (lit "\"b\" c") (by decide)⟩

theorem unescape_cons_ne (a : Nat) (Y : GoString) (ha : a ≠ dquote) :
    unescape (a :: Y) = a :: unescape Y := by
  cases Y with
  | nil => rfl
  | cons b rest => simp [unescape, ha]

theorem unescape_free (w X : GoString) (hw : ∀ b ∈ w, b ≠ dquote) :
    unescape (w ++ X) = w ++ unescape X := by
  induction w with
  | nil => rfl
  | cons a w ih =>
    rw [List.cons_append, unescape_cons_ne a _ (hw a (List.mem_cons_self _ _)),
      ih (fun b hb => hw b (List.mem_cons_of_mem _ hb)), List.cons_append]

theorem unescape_escaped (rs : List Nat) :
    unescape ((rs.map escaped).flatten) = rs.flatMap AppendRune := by
  induction rs with
  | nil => rfl
  | cons r rs ih =>
    simp only [List.map_cons, List.flatten_cons, List.flatMap] at ih ⊢
    by_cases hq : r = dquote
    · subst hq
      have e : AppendRune dquote = [dquote] := rfl
      simp only [escaped, if_true, e, List.cons_append, List.nil_append]
      rw [unescape]
      simp [ih]
    · simp only [escaped, if_neg hq]
      rw [unescape_free _ _ (AppendRune_no_ascii r dquote (by decide) hq), ih]

theorem deleteFrom_eq (k : Nat) (keep : Bool) (s : GoString) :
    deleteFrom k keep s = (if keep then s.take k else []) ++ deleteSpaceSemi (s.drop k) := by
  induction s generalizing k keep with
  | nil => cases keep <;> simp [deleteFrom, deleteSpaceSemi]
  | cons b rest ih =>
    cases k with
    | zero => cases keep <;> simp [deleteSpaceSemi, deleteFrom]
    | succ k => cases keep <;> simp [deleteFrom, ih]

theorem deleteSpaceSemi_cons (b : Nat) (rest : GoString) :
    deleteSpaceSemi (b :: rest) =
      (if kept (DecodeRuneInString (b :: rest)).1
        then (b :: rest).take (DecodeRuneInString (b :: rest)).2 else []) ++
      deleteSpaceSemi (rest.drop ((DecodeRuneInString (b :: rest)).2 - 1)) := by
  show deleteFrom 0 true (b :: rest) = _
  rw [deleteFrom, deleteFrom_eq]
  have h1 := (decode_inv b rest).1
  obtain ⟨w, hw⟩ : ∃ w, (DecodeRuneInString (b :: rest)).2 = w + 1 := ⟨_, (Nat.sub_add_cancel h1).symm⟩
  rw [hw]
  cases kept (DecodeRuneInString (b :: rest)).1 <;> simp

theorem validFrom_eq (k : Nat) (s : GoString) : validFrom k s = ValidString (s.drop k) := by
  induction s generalizing k with
  | nil => simp [validFrom, ValidString]
  | cons b rest ih =>
    cases k with
    | zero => simp [ValidString]
    | succ k => simp [validFrom, ih]

theorem ValidString_cons (b : Nat) (rest : GoString) :
    ValidString (b :: rest) =
      (!(DecodeRuneInString (b :: rest) == (RuneError, 1)) &&
        ValidString (rest.drop ((DecodeRuneInString (b :: rest)).2 - 1))) := by
  show validFrom 0 (b :: rest) = _
  rw [validFrom, validFrom_eq]

/-- On valid UTF-8 the kept characters, encoded again, are the string with the
other characters deleted. -/
theorem flatMap_AppendRune_valid (s : GoString) (hv : ValidString s = true) :
    ((runes s).filter kept).flatMap AppendRune = deleteSpaceSemi s := by
  induction s using range_induction with
  | nil => rfl
  | cons b rest ih =>
    rw [ValidString_cons, Bool.and_eq_true] at hv
    obtain ⟨hd, hv'⟩ := hv
    have henc : AppendRune (DecodeRuneInString (b :: rest)).1 =
        (b :: rest).take (DecodeRuneInString (b :: rest)).2 := by
      rcases decode_encode b rest with h | h
      · rw [h] at hd; simp at hd
      · exact h
    rw [runes_cons, deleteSpaceSemi_cons, ← ih hv', List.filter_cons]
    split_ifs
    · simp only [List.flatMap, List.map_cons, List.flatten_cons, henc]
    · simp

/-- Claim C7, amended: for a schema name `s` and a table name `t` with `s + t`
not empty, the output of `QuotedTableName` is the described quoter applied to
the characters a `for range` loop reads from `s + t`, it depends on `s + t`
only, and its inside with each `""` collapsed to `"` is the encoding, in order,
of those characters that are neither whitespace nor `';'`; when `s + t` is
valid UTF-8 that is `s + t` with whitespace and semicolons deleted and
everything else unchanged. -/
theorem QuotedTableName_refines (s t : GoString) (h : s ++ t ≠ []) :
    QuotedTableName s t = QuotedTableNameRef (s ++ t) ∧
    (∀ s' t' : GoString, s' ++ t' = s ++ t → QuotedTableName s' t' = QuotedTableName s t) ∧
    unescape (inner (QuotedTableName s t)) = ((runes (s ++ t)).filter kept).flatMap AppendRune ∧
    (ValidString (s ++ t) = true →
      unescape (inner (QuotedTableName s t)) = deleteSpaceSemi (s ++ t)) := by
  have hu : unescape (inner (QuotedTableName s t)) =
      ((runes (s ++ t)).filter kept).flatMap AppendRune := by
    rw [inner_QuotedTableName s t h, unescape_escaped]
  refine ⟨?_, ?_, hu, ?_⟩
  · rw [QuotedTableName_eq s t h, QuotedTableNameRef, ← flatten_map_quoteStep]
    congr 2
    simp only [List.flatMap]
    congr 2
    funext r
    simp only [quoteStep, quoteChar]
    by_cases h1 : IsSpace r = true
    · simp [h1]
    · by_cases h2 : r = semicolon
      · have : semicolon ≠ dquote := by decide
        simp [h1, h2, this]
      · simp [h1, h2]
  · intro s' t' he
    simp only [QuotedTableName, he]
  · intro hv
    rw [hu, flatMap_AppendRune_valid _ hv]

/-- The property of claim C7, amended, at schema `my "db";` and table `é`
followed by U+0085. -/
theorem QuotedTableName_refines_witness :
    lit "my \"db\";" ++ [0xC3, 0xA9, 0xC2, 0x85] ≠ [] ∧
    QuotedTableName (lit "my \"db\";") [0xC3, 0xA9, 0xC2, 0x85] =
      lit "\"my\"\"db\"\"" ++ [0xC3, 0xA9] ++ lit "\"" ∧
    ValidString (lit "my \"db\";" ++ [0xC3, 0xA9, 0xC2, 0x85]) = true ∧
    unescape (inner (QuotedTableName (lit "my \"db\";") [0xC3, 0xA9, 0xC2, 0x85])) =
      deleteSpaceSemi (lit "my \"db\";" ++ [0xC3, 0xA9, 0xC2, 0x85]) :=
  ⟨by decide, by decide, by decide,
    (QuotedTableName_refines (lit "my \"db\";") [0xC3, 0xA9, 0xC2, 0x85] (by decide)).2.2.2
      (by decide)⟩

/-- Claim C7 fails as stated at schema `"\xff"` and an empty table name: the
byte 0xFF, which is neither whitespace nor `';'`, is not passed through but
comes out as the three bytes of U+FFFD. -/
theorem QuotedTableName_invalid_byte_replaced :
    ([0xFF] : GoString) ++ [] ≠ [] ∧
    QuotedTableName [0xFF] [] = [0x22, 0xEF, 0xBF, 0xBD, 0x22] ∧
    deleteSpaceSemi ([0xFF] ++ []) = [0xFF] ∧
    unescape (inner (QuotedTableName [0xFF] [])) ≠ deleteSpaceSemi ([0xFF] ++ []) := by
  decide

/-! ## The ledger reader -/

/-- The loop on a cursor whose rows decode up to one that fails. -/
theorem scanRows_fail (tableName : GoString) (pre : List AppliedMigration) (e : GoError)
    (post : List ScanResult) (ms : List AppliedMigration) (err : Option GoError)
    (trace : List Event) :
    scanRows tableName (pre.map ScanResult.ok ++ ScanResult.fail e :: post) (some ms) err trace =
      { migrations := some (ms ++ pre.map fun m =>
          { m with AppliedAt := m.AppliedAt.In Location.Local }),
        err := some (scanError tableName e),
        trace := trace ++ (List.replicate (pre.length + 1) [Event.next, Event.scan]).flatten } := by
  induction pre generalizing ms err trace with
  | nil => simp [scanRows]
  | cons m pre ih =>
    rw [List.map_cons, List.cons_append, scanRows]
    simp only [Slice.append]
    rw [ih]
    simp [List.replicate_succ, List.append_assoc]

theorem scanError_names_table (tableName : GoString) (e : GoError) :
    tableName <:+: (scanError tableName e).Error :=
  ⟨lit "Failed to GetAppliedMigrations. Did somebody change the structure of the ",
    lit " table?: " ++ e.Error, by simp [scanError, GoError.Error]⟩

theorem scanError_names_operation (tableName : GoString) (e : GoError) :
    lit "GetAppliedMigrations" <:+: (scanError tableName e).Error := by
  have hl : lit "Failed to GetAppliedMigrations. Did somebody change the structure of the " =
      lit "Failed to " ++ lit "GetAppliedMigrations" ++
        lit ". Did somebody change the structure of the " := by decide
  exact ⟨lit "Failed to ", lit ". Did somebody change the structure of the " ++ tableName ++
    lit " table?: " ++ e.Error, by simp [scanError, GoError.Error, hl]⟩

/-- Claim C8: when the cursor's rows decode up to a first row whose `Scan`
returns the error `e`, `GetAppliedMigrations` returns an error whose message
contains the table name and which unwraps to `e`, returns the records of the
rows before that one, each with `AppliedAt` in the local zone, and calls `Scan`
on no later row: the trace is the query, one `Next` and one `Scan` for each row
up to the failing one, and `Close`. -/
theorem GetAppliedMigrations_schema_drift (tx : Queryer) (tableName : GoString)
    (pre : List AppliedMigration) (e : GoError) (post : List ScanResult)
    (iterErr : Option GoError)
    (hq : tx.Query (selectSQL tableName) =
      Except.ok { rows := pre.map ScanResult.ok ++ ScanResult.fail e :: post,
                  iterErr := iterErr }) :
    ∃ err, (GetAppliedMigrations tx tableName).err = some err ∧
      tableName <:+: err.Error ∧
      err.Unwrap = some e ∧
      (GetAppliedMigrations tx tableName).migrations =
        some (pre.map fun m => { m with AppliedAt := m.AppliedAt.In Location.Local }) ∧
      (GetAppliedMigrations tx tableName).trace =
        Event.query (selectSQL tableName) ::
          ((List.replicate (pre.length + 1) [Event.next, Event.scan]).flatten ++ [Event.close]) ∧
      (GetAppliedMigrations tx tableName).trace.count Event.scan = pre.length + 1 := by
  have hout : GetAppliedMigrations tx tableName =
      { migrations := some (pre.map fun m =>
          { m with AppliedAt := m.AppliedAt.In Location.Local }),
        err := some (scanError tableName e),
        trace := Event.query (selectSQL tableName) ::
          ((List.replicate (pre.length + 1) [Event.next, Event.scan]).flatten ++
            [Event.close]) } := by
    simp only [GetAppliedMigrations, hq, Slice.make, scanRows_fail]
    simp
  refine ⟨scanError tableName e, ?_, scanError_names_table tableName e, rfl, ?_, ?_, ?_⟩
  · rw [hout]
  · rw [hout]
  · rw [hout]
  · rw [hout]
    simp only [List.count_cons, List.count_append, List.count_flatten, List.map_replicate]
    simp [List.sum_replicate]

/-- The property of claim C8 on a cursor of three rows whose second row fails
to decode. -/
theorem GetAppliedMigrations_schema_drift_witness :
    ∃ err,
      (GetAppliedMigrations
        { Query := fun _ => Except.ok
            { rows := [ScanResult.ok ⟨lit "001", lit "ab", 7, ⟨1000, Location.UTC⟩⟩,
                ScanResult.fail (GoError.leaf (lit "converting NULL to string is unsupported")),
                ScanResult.ok ⟨lit "003", lit "cd", 9, ⟨3000, Location.UTC⟩⟩],
              iterErr := none } }
        (lit "schema_migrations")).err = some err ∧
      lit "schema_migrations" <:+: err.Error ∧
      err.Unwrap = some (GoError.leaf (lit "converting NULL to string is unsupported")) ∧
      (GetAppliedMigrations
        { Query := fun _ => Except.ok
            { rows := [ScanResult.ok ⟨lit "001", lit "ab", 7, ⟨1000, Location.UTC⟩⟩,
                ScanResult.fail (GoError.leaf (lit "converting NULL to string is unsupported")),
                ScanResult.ok ⟨lit "003", lit "cd", 9, ⟨3000, Location.UTC⟩⟩],
              iterErr := none } }
        (lit "schema_migrations")).migrations =
          some [⟨lit "001", lit "ab", 7, ⟨1000, Location.Local⟩⟩] ∧
      (GetAppliedMigrations
        { Query := fun _ => Except.ok
            { rows := [ScanResult.ok ⟨lit "001", lit "ab", 7, ⟨1000, Location.UTC⟩⟩,
                ScanResult.fail (GoError.leaf (lit "converting NULL to string is unsupported")),
                ScanResult.ok ⟨lit "003", lit "cd", 9, ⟨3000, Location.UTC⟩⟩],
              iterErr := none } }
        (lit "schema_migrations")).trace =
          [Event.query (selectSQL (lit "schema_migrations")), Event.next, Event.scan,
            Event.next, Event.scan, Event.close] ∧
      (GetAppliedMigrations
        { Query := fun _ => Except.ok
            { rows := [ScanResult.ok ⟨lit "001", lit "ab", 7, ⟨1000, Location.UTC⟩⟩,
                ScanResult.fail (GoError.leaf (lit "converting NULL to string is unsupported")),
                ScanResult.ok ⟨lit "003", lit "cd", 9, ⟨3000, Location.UTC⟩⟩],
              iterErr := none } }
        (lit "schema_migrations")).trace.count Event.scan = 2 :=
  GetAppliedMigrations_schema_drift _ (lit "schema_migrations")
    [⟨lit "001", lit "ab", 7, ⟨1000, Location.UTC⟩⟩]
    (GoError.leaf (lit "converting NULL to string is unsupported"))
    [ScanResult.ok ⟨lit "003", lit "cd", 9, ⟨3000, Location.UTC⟩⟩] none rfl

/-- Claim C9: when `Query` returns the error `e`, `GetAppliedMigrations` returns
a non-nil error, which is `e`, and an empty collection that is not nil, and
calls neither `Next` nor `Scan`. -/
theorem GetAppliedMigrations_query_failure (tx : Queryer) (tableName : GoString) (e : GoError)
    (hq : tx.Query (selectSQL tableName) = Except.error e) :
    (GetAppliedMigrations tx tableName).err = some e ∧
    (GetAppliedMigrations tx tableName).err ≠ none ∧
    (GetAppliedMigrations tx tableName).migrations = some [] ∧
    (GetAppliedMigrations tx tableName).trace = [Event.query (selectSQL tableName)] ∧
    Event.scan ∉ (GetAppliedMigrations tx tableName).trace := by
  simp [GetAppliedMigrations, hq, Slice.make]

/-- The property of claim C9 on a handle whose `Query` fails. -/
theorem GetAppliedMigrations_query_failure_witness :
    (GetAppliedMigrations { Query := fun _ => Except.error (GoError.leaf (lit "no such table: t")) }
      (lit "t")).err = some (GoError.leaf (lit "no such table: t")) ∧
    (GetAppliedMigrations { Query := fun _ => Except.error (GoError.leaf (lit "no such table: t")) }
      (lit "t")).err ≠ none ∧
    (GetAppliedMigrations { Query := fun _ => Except.error (GoError.leaf (lit "no such table: t")) }
      (lit "t")).migrations = some [] ∧
    (GetAppliedMigrations { Query := fun _ => Except.error (GoError.leaf (lit "no such table: t")) }
      (lit "t")).trace = [Event.query (selectSQL (lit "t"))] ∧
    Event.scan ∉ (GetAppliedMigrations
      { Query := fun _ => Except.error (GoError.leaf (lit "no such table: t")) } (lit "t")).trace :=
  GetAppliedMigrations_query_failure _ (lit "t") (GoError.leaf (lit "no such table: t")) rfl

/-- Claim C10, amended: a failure caused by a row that fails to decode is
wrapped with context, its message names the operation and the table name and
ends with the message of the cause, and it unwraps to the cause; a failure
caused by the query is returned as the error `Query` returned, unchanged. -/
theorem GetAppliedMigrations_error_context (tx : Queryer) (tableName : GoString) :
    (∀ (pre : List AppliedMigration) (e : GoError) (post : List ScanResult)
        (iterErr : Option GoError),
      tx.Query (selectSQL tableName) =
        Except.ok { rows := pre.map ScanResult.ok ++ ScanResult.fail e :: post,
                    iterErr := iterErr } →
      ∃ err, (GetAppliedMigrations tx tableName).err = some err ∧
        lit "GetAppliedMigrations" <:+: err.Error ∧
        tableName <:+: err.Error ∧
        e.Error <:+: err.Error ∧
        err.Unwrap = some e) ∧
    (∀ e : GoError, tx.Query (selectSQL tableName) = Except.error e →
      (GetAppliedMigrations tx tableName).err = some e) := by
  constructor
  · intro pre e post iterErr hq
    refine ⟨scanError tableName e, ?_, scanError_names_operation tableName e,
      scanError_names_table tableName e, ?_, rfl⟩
    · simp only [GetAppliedMigrations, hq, Slice.make, scanRows_fail]
    · exact ⟨lit "Failed to GetAppliedMigrations. Did somebody change the structure of the " ++
        tableName ++ lit " table?: ", [], by simp [scanError, GoError.Error]⟩
  · intro e hq
    simp [GetAppliedMigrations, hq]

/-- The property of claim C10, amended, on a cursor whose first row fails to
decode and on a handle whose `Query` fails. -/
theorem GetAppliedMigrations_error_context_witness :
    (∃ err,
      (GetAppliedMigrations
        { Query := fun _ => Except.ok
            { rows := [ScanResult.fail (GoError.leaf (lit "expected 4 destination arguments"))],
              iterErr := none } }
        (lit "m")).err = some err ∧
      lit "GetAppliedMigrations" <:+: err.Error ∧
      lit "m" <:+: err.Error ∧
      (GoError.leaf (lit "expected 4 destination arguments")).Error <:+: err.Error ∧
      err.Unwrap = some (GoError.leaf (lit "expected 4 destination arguments"))) ∧
    (GetAppliedMigrations { Query := fun _ => Except.error (GoError.leaf (lit "locked")) }
      (lit "m")).err = some (GoError.leaf (lit "locked")) :=
  ⟨(GetAppliedMigrations_error_context _ (lit "m")).1 []
      (GoError.leaf (lit "expected 4 destination arguments")) [] none rfl,
    (GetAppliedMigrations_error_context _ (lit "m")).2 (GoError.leaf (lit "locked")) rfl⟩

/-- Claim C10 fails as stated when the query fails: the error returned is the
one `Query` returned, whose message names neither the operation nor the table
and which wraps nothing. -/
theorem GetAppliedMigrations_query_error_unwrapped :
    (GetAppliedMigrations { Query := fun _ => Except.error (GoError.leaf (lit "disk I/O error")) }
      (lit "schema_migrations")).err = some (GoError.leaf (lit "disk I/O error")) ∧
    ¬ (lit "GetAppliedMigrations" <:+: (GoError.leaf (lit "disk I/O error")).Error) ∧
    ¬ (lit "schema_migrations" <:+: (GoError.leaf (lit "disk I/O error")).Error) ∧
    (GoError.leaf (lit "disk I/O error")).Unwrap = none := by
  refine ⟨rfl, ?_, ?_, rfl⟩
  · decide
  · decide

/-! ## The ledger reader: history, times and the cursor -/

/-- The loop on a cursor whose rows all decode. -/
theorem scanRows_ok (tableName : GoString) (decoded : List AppliedMigration)
    (ms : List AppliedMigration) (trace : List Event) :
    scanRows tableName (decoded.map ScanResult.ok) (some ms) none trace =
      { migrations := some (ms ++ decoded.map fun m =>
          { m with AppliedAt := m.AppliedAt.In Location.Local }),
        err := none,
        trace := trace ++ (List.replicate decoded.length [Event.next, Event.scan]).flatten ++
          [Event.next] } := by
  induction decoded generalizing ms trace with
  | nil => simp [scanRows]
  | cons m decoded ih =>
    rw [List.map_cons, scanRows]
    simp only [Slice.append]
    rw [ih]
    simp [List.replicate_succ, List.append_assoc]

/-- The loop calls `Next` and `Scan` only, after the calls made before it. -/
theorem scanRows_trace (tableName : GoString) (rows : List ScanResult)
    (ms : Slice AppliedMigration) (err : Option GoError) (trace : List Event) :
    ∃ extra, (scanRows tableName rows ms err trace).trace = trace ++ extra ∧
      ∀ ev ∈ extra, ev = Event.next ∨ ev = Event.scan := by
  induction rows generalizing ms err trace with
  | nil => exact ⟨[Event.next], by simp [scanRows]⟩
  | cons row rows ih =>
    cases row with
    | fail e => exact ⟨[Event.next, Event.scan], by simp [scanRows]⟩
    | ok m =>
      rw [scanRows]
      obtain ⟨extra, h1, h2⟩ := ih
        (ms.append { m with AppliedAt := m.AppliedAt.In Location.Local }) none
        (trace ++ [Event.next, Event.scan])
      refine ⟨[Event.next, Event.scan] ++ extra, ?_, ?_⟩
      · rw [h1, List.append_assoc]
      · intro ev hev
        rcases List.mem_append.1 hev with h | h
        · simpa using h
        · exact h2 ev h

/-- The calls of `GetAppliedMigrations`: the query, then calls on the cursor
only. -/
theorem GetAppliedMigrations_trace_shape (tx : Queryer) (tableName : GoString) :
    ∃ rest, (GetAppliedMigrations tx tableName).trace =
        Event.query (selectSQL tableName) :: rest ∧
      ∀ ev ∈ rest, ev = Event.next ∨ ev = Event.scan ∨ ev = Event.close := by
  rcases hq : tx.Query (selectSQL tableName) with e | rows
  · exact ⟨[], by simp [GetAppliedMigrations, hq]⟩
  · obtain ⟨extra, h1, h2⟩ := scanRows_trace tableName rows.rows Slice.make none
      [Event.query (selectSQL tableName)]
    refine ⟨extra ++ [Event.close], ?_, ?_⟩
    · simp only [GetAppliedMigrations, hq]
      rw [h1]
      simp
    · intro ev hev
      rcases List.mem_append.1 hev with h | h
      · rcases h2 ev h with h | h
        · exact Or.inl h
        · exact Or.inr (Or.inl h)
      · exact Or.inr (Or.inr (by simpa using h))

theorem selectSQL_order (tableName : GoString) :
    selectSQL tableName =
      lit "\n\t\tSELECT id, checksum, execution_time_in_millis, applied_at\n\t\tFROM " ++
        tableName ++ lit "\n\t\t" ++ lit "ORDER BY id ASC" ++ lit "\n\t" := by
  have h : lit "\n\t\tORDER BY id ASC\n\t" = lit "\n\t\t" ++ lit "ORDER BY id ASC" ++ lit "\n\t" := by
    decide
  simp [selectSQL, h, List.append_assoc]

/-- Claim C11: on a cursor that yields `N` rows which all decode,
`GetAppliedMigrations` returns a nil error and exactly `N` records, the `k`-th
carrying the `ID`, `Checksum` and `ExecutionTimeInMillis` of the `k`-th row; the
text of the query ends with `ORDER BY id ASC` and white space, so when the
cursor holds the rows of a ledger, inserted in any order, sorted by `ID` under
an ordering `r`, the records are as many as the ledger's rows, their `ID`s are
those of the ledger and are in ascending order; for `N = 0` the collection is
empty and not nil. -/
theorem GetAppliedMigrations_complete_history (tx : Queryer) (tableName : GoString)
    (decoded : List AppliedMigration) (iterErr : Option GoError)
    (hq : tx.Query (selectSQL tableName) =
      Except.ok { rows := decoded.map ScanResult.ok, iterErr := iterErr }) :
    (GetAppliedMigrations tx tableName).err = none ∧
    (∃ recs, (GetAppliedMigrations tx tableName).migrations = some recs ∧
      recs.length = decoded.length ∧
      (∀ k (h1 : k < recs.length) (h2 : k < decoded.length),
        (recs.get ⟨k, h1⟩).ID = (decoded.get ⟨k, h2⟩).ID ∧
        (recs.get ⟨k, h1⟩).Checksum = (decoded.get ⟨k, h2⟩).Checksum ∧
        (recs.get ⟨k, h1⟩).ExecutionTimeInMillis = (decoded.get ⟨k, h2⟩).ExecutionTimeInMillis) ∧
      (∀ (ledger : List AppliedMigration) (r : GoString → GoString → Prop),
        decoded.Perm ledger → (decoded.map AppliedMigration.ID).Pairwise r →
        recs.length = ledger.length ∧
        (recs.map AppliedMigration.ID).Pairwise r ∧
        (recs.map AppliedMigration.ID).Perm (ledger.map AppliedMigration.ID))) ∧
    (∃ front, selectSQL tableName = front ++ lit "ORDER BY id ASC" ++ lit "\n\t") ∧
    (decoded = [] → (GetAppliedMigrations tx tableName).migrations = some []) := by
  have hout : GetAppliedMigrations tx tableName =
      { migrations := some (decoded.map fun m =>
          { m with AppliedAt := m.AppliedAt.In Location.Local }),
        err := none,
        trace := Event.query (selectSQL tableName) ::
          ((List.replicate decoded.length [Event.next, Event.scan]).flatten ++
            [Event.next, Event.close]) } := by
    simp only [GetAppliedMigrations, hq, Slice.make, scanRows_ok]
    simp
  have hid : (decoded.map fun m : AppliedMigration =>
      ({ m with AppliedAt := m.AppliedAt.In Location.Local } : AppliedMigration)).map
        AppliedMigration.ID = decoded.map AppliedMigration.ID := by
    simp [List.map_map, Function.comp_def]
  refine ⟨by rw [hout], ⟨_, by rw [hout], by simp, ?_, ?_⟩, ?_, ?_⟩
  · intro k h1 h2
    simp
  · intro ledger r hperm hsorted
    refine ⟨?_, ?_, ?_⟩
    · simpa using hperm.length_eq
    · rw [hid]; exact hsorted
    · rw [hid]; exact hperm.map _
  · exact ⟨_, selectSQL_order tableName⟩
  · intro hnil
    rw [hout, hnil]
    rfl


/-- The property of claim C11 on a cursor of two rows, sorted by `ID`, of a
ledger whose rows were inserted in the other order. -/
theorem GetAppliedMigrations_complete_history_witness :
    (GetAppliedMigrations
      { Query := fun _ => Except.ok
          { rows := [ScanResult.ok ⟨lit "001", lit "ab", 7, ⟨1000, Location.UTC⟩⟩,
              ScanResult.ok ⟨lit "002", lit "cd", 9, ⟨3000, Location.Fixed 3600⟩⟩],
            iterErr := none } }
      (lit "m")).err = none ∧
    ∃ recs, (GetAppliedMigrations
      { Query := fun _ => Except.ok
          { rows := [ScanResult.ok ⟨lit "001", lit "ab", 7, ⟨1000, Location.UTC⟩⟩,
              ScanResult.ok ⟨lit "002", lit "cd", 9, ⟨3000, Location.Fixed 3600⟩⟩],
            iterErr := none } }
      (lit "m")).migrations = some recs ∧
      recs = [⟨lit "001", lit "ab", 7, ⟨1000, Location.Local⟩⟩,
          ⟨lit "002", lit "cd", 9, ⟨3000, Location.Local⟩⟩] ∧
      recs.length = [(⟨lit "002", lit "cd", 9, ⟨3000, Location.Fixed 3600⟩⟩ : AppliedMigration),
        ⟨lit "001", lit "ab", 7, ⟨1000, Location.UTC⟩⟩].length ∧
      (recs.map AppliedMigration.ID).Pairwise (fun a b => a < b) := by
  obtain ⟨he, ⟨recs, hm, _, _, hs⟩, _, _⟩ := GetAppliedMigrations_complete_history
    { Query := fun _ => Except.ok
        { rows := [ScanResult.ok ⟨lit "001", lit "ab", 7, ⟨1000, Location.UTC⟩⟩,
            ScanResult.ok ⟨lit "002", lit "cd", 9, ⟨3000, Location.Fixed 3600⟩⟩],
          iterErr := none } }
    (lit "m")
    [⟨lit "001", lit "ab", 7, ⟨1000, Location.UTC⟩⟩,
      ⟨lit "002", lit "cd", 9, ⟨3000, Location.Fixed 3600⟩⟩] none rfl
  obtain ⟨hl, hp, _⟩ := hs
    [⟨lit "002", lit "cd", 9, ⟨3000, Location.Fixed 3600⟩⟩,
      ⟨lit "001", lit "ab", 7, ⟨1000, Location.UTC⟩⟩]
    (fun a b => a < b) (List.Perm.swap _ _ _) (by decide)
  refine ⟨he, recs, hm, ?_, hl, hp⟩
  have h2 : (GetAppliedMigrations
      { Query := fun _ => Except.ok
          { rows := [ScanResult.ok ⟨lit "001", lit "ab", 7, ⟨1000, Location.UTC⟩⟩,
              ScanResult.ok ⟨lit "002", lit "cd", 9, ⟨3000, Location.Fixed 3600⟩⟩],
            iterErr := none } }
      (lit "m")).migrations = some [⟨lit "001", lit "ab", 7, ⟨1000, Location.Local⟩⟩,
          ⟨lit "002", lit "cd", 9, ⟨3000, Location.Local⟩⟩] := rfl
  rw [hm] at h2
  exact Option.some.inj h2

/-- Claim C12 on a cursor that delivers one row and then stops with the error
`driver: bad connection`: `GetAppliedMigrations` never reads the cursor's
`Err()` and returns the one record with a nil error. -/
theorem GetAppliedMigrations_iteration_error_dropped :
    (GetAppliedMigrations
      { Query := fun _ => Except.ok
          { rows := [ScanResult.ok ⟨lit "001", lit "ab", 7, ⟨1000, Location.UTC⟩⟩],
            iterErr := some (GoError.leaf (lit "driver: bad connection")) } }
      (lit "m")).err = none ∧
    (GetAppliedMigrations
      { Query := fun _ => Except.ok
          { rows := [ScanResult.ok ⟨lit "001", lit "ab", 7, ⟨1000, Location.UTC⟩⟩],
            iterErr := some (GoError.leaf (lit "driver: bad connection")) } }
      (lit "m")).migrations = some [⟨lit "001", lit "ab", 7, ⟨1000, Location.Local⟩⟩] := by
  exact ⟨rfl, rfl⟩

/-- Claim C13: on a read that succeeds, every record returned has its
`AppliedAt` in the location `time.Local`, at the same instant as the value
decoded from its row, whatever location that value had. -/
theorem GetAppliedMigrations_local_time (tx : Queryer) (tableName : GoString)
    (decoded : List AppliedMigration) (iterErr : Option GoError)
    (hq : tx.Query (selectSQL tableName) =
      Except.ok { rows := decoded.map ScanResult.ok, iterErr := iterErr }) :
    (GetAppliedMigrations tx tableName).err = none ∧
    ∃ recs, (GetAppliedMigrations tx tableName).migrations = some recs ∧
      recs.length = decoded.length ∧
      (∀ m ∈ recs, m.AppliedAt.loc = Location.Local) ∧
      ∀ k (h1 : k < recs.length) (h2 : k < decoded.length),
        (recs.get ⟨k, h1⟩).AppliedAt.loc = Location.Local ∧
        (recs.get ⟨k, h1⟩).AppliedAt.instant = (decoded.get ⟨k, h2⟩).AppliedAt.instant := by
  have hm : (GetAppliedMigrations tx tableName).migrations =
      some (decoded.map fun m => { m with AppliedAt := m.AppliedAt.In Location.Local }) := by
    simp only [GetAppliedMigrations, hq, Slice.make, scanRows_ok]
    simp
  have he : (GetAppliedMigrations tx tableName).err = none := by
    simp only [GetAppliedMigrations, hq, Slice.make, scanRows_ok]
  refine ⟨he, _, hm, by simp, ?_, ?_⟩
  · intro m hmem
    obtain ⟨m0, _, rfl⟩ := List.mem_map.1 hmem
    rfl
  · intro k h1 h2
    simp [Time.In]

/-- The property of claim C13 on rows decoded in UTC and in a fixed zone. -/
theorem GetAppliedMigrations_local_time_witness :
    (GetAppliedMigrations
      { Query := fun _ => Except.ok
          { rows := [ScanResult.ok ⟨lit "001", lit "ab", 7, ⟨1000, Location.UTC⟩⟩,
              ScanResult.ok ⟨lit "002", lit "cd", 9, ⟨3000, Location.Fixed 3600⟩⟩],
            iterErr := none } }
      (lit "m")).err = none ∧
    ∃ recs, (GetAppliedMigrations
      { Query := fun _ => Except.ok
          { rows := [ScanResult.ok ⟨lit "001", lit "ab", 7, ⟨1000, Location.UTC⟩⟩,
              ScanResult.ok ⟨lit "002", lit "cd", 9, ⟨3000, Location.Fixed 3600⟩⟩],
            iterErr := none } }
      (lit "m")).migrations = some recs ∧
      recs.length = 2 ∧
      (∀ m ∈ recs, m.AppliedAt.loc = Location.Local) ∧
      ∀ k (h1 : k < recs.length)
        (h2 : k < [(⟨lit "001", lit "ab", 7, ⟨1000, Location.UTC⟩⟩ : AppliedMigration),
          ⟨lit "002", lit "cd", 9, ⟨3000, Location.Fixed 3600⟩⟩].length),
        (recs.get ⟨k, h1⟩).AppliedAt.loc = Location.Local ∧
        (recs.get ⟨k, h1⟩).AppliedAt.instant =
          ([(⟨lit "001", lit "ab", 7, ⟨1000, Location.UTC⟩⟩ : AppliedMigration),
            ⟨lit "002", lit "cd", 9, ⟨3000, Location.Fixed 3600⟩⟩].get ⟨k, h2⟩).AppliedAt.instant :=
  GetAppliedMigrations_local_time _ (lit "m")
    [⟨lit "001", lit "ab", 7, ⟨1000, Location.UTC⟩⟩,
      ⟨lit "002", lit "cd", 9, ⟨3000, Location.Fixed 3600⟩⟩] none rfl

/-- Claim C14: when `Query` returns a cursor, `GetAppliedMigrations` calls
`Close` on it exactly once, as its last call, whatever the rows do; when
`Query` fails it calls `Close` on nothing. -/
theorem GetAppliedMigrations_cursor_closed (tx : Queryer) (tableName : GoString) :
    (∀ rows : Rows, tx.Query (selectSQL tableName) = Except.ok rows →
      (GetAppliedMigrations tx tableName).trace.count Event.close = 1 ∧
      (GetAppliedMigrations tx tableName).trace.getLast? = some Event.close) ∧
    (∀ e : GoError, tx.Query (selectSQL tableName) = Except.error e →
      (GetAppliedMigrations tx tableName).trace.count Event.close = 0) := by
  constructor
  · intro rows hq
    obtain ⟨extra, h1, h2⟩ := scanRows_trace tableName rows.rows Slice.make none
      [Event.query (selectSQL tableName)]
    have hx : extra.count Event.close = 0 := by
      rw [List.count_eq_zero]
      intro hmem
      rcases h2 _ hmem with h | h <;> cases h
    have ht : (GetAppliedMigrations tx tableName).trace =
        [Event.query (selectSQL tableName)] ++ extra ++ [Event.close] := by
      simp only [GetAppliedMigrations, hq]
      rw [h1]
    rw [ht]
    refine ⟨?_, List.getLast?_concat _⟩
    rw [List.count_append, List.count_append, hx]
    simp
  · intro e hq
    simp [GetAppliedMigrations, hq]

/-- The property of claim C14 on a cursor whose second row fails to decode and
on a handle whose `Query` fails. -/
theorem GetAppliedMigrations_cursor_closed_witness :
    ((GetAppliedMigrations
      { Query := fun _ => Except.ok
          { rows := [ScanResult.ok ⟨lit "001", lit "ab", 7, ⟨1000, Location.UTC⟩⟩,
              ScanResult.fail (GoError.leaf (lit "unsupported Scan"))],
            iterErr := none } }
      (lit "m")).trace.count Event.close = 1 ∧
     (GetAppliedMigrations
      { Query := fun _ => Except.ok
          { rows := [ScanResult.ok ⟨lit "001", lit "ab", 7, ⟨1000, Location.UTC⟩⟩,
              ScanResult.fail (GoError.leaf (lit "unsupported Scan"))],
            iterErr := none } }
      (lit "m")).trace.getLast? = some Event.close) ∧
    (GetAppliedMigrations { Query := fun _ => Except.error (GoError.leaf (lit "locked")) }
      (lit "m")).trace.count Event.close = 0 :=
  ⟨(GetAppliedMigrations_cursor_closed _ (lit "m")).1 _ rfl,
    (GetAppliedMigrations_cursor_closed _ (lit "m")).2 (GoError.leaf (lit "locked")) rfl⟩

/-- Claim C15: `GetAppliedMigrations` makes exactly one call on the handle, a
`Query` whose text selects `id, checksum, execution_time_in_millis, applied_at`
from the table name, embedded as it is, ordered by `id ASC`; every other call
is a `Next`, `Scan` or `Close` on the cursor. -/
theorem GetAppliedMigrations_single_query (tx : Queryer) (tableName : GoString) :
    (∃ rest, (GetAppliedMigrations tx tableName).trace =
        Event.query (selectSQL tableName) :: rest ∧
      ∀ ev ∈ rest, ev = Event.next ∨ ev = Event.scan ∨ ev = Event.close) ∧
    selectSQL tableName =
      lit "\n\t\tSELECT id, checksum, execution_time_in_millis, applied_at\n\t\tFROM " ++
        tableName ++ lit "\n\t\tORDER BY id ASC\n\t" := by
  exact ⟨GetAppliedMigrations_trace_shape tx tableName, rfl⟩

/-! ## The statements -/

/-- Claim C16: `InsertSQL t` is a fixed text around `t`, embedded once as it is
after `INSERT INTO`: the columns `id, checksum, execution_time_in_millis,
applied_at` in that order, then the `VALUES` list with the only four `'?'` of
the text. -/
theorem InsertSQL_template (t : GoString) :
    InsertSQL t =
      lit "\n\t\tINSERT INTO " ++ t ++
        lit "\n\t\t( id, checksum, execution_time_in_millis, applied_at )" ++
        lit "\n\t\tVALUES\n\t\t( " ++ lit "?, ?, ?, ?" ++ lit " )\n\t\t" ∧
    (lit "\n\t\tINSERT INTO ").count qmark = 0 ∧
    (lit "\n\t\t( id, checksum, execution_time_in_millis, applied_at )").count qmark = 0 ∧
    (lit "\n\t\tVALUES\n\t\t( ").count qmark = 0 ∧
    (lit "?, ?, ?, ?").count qmark = 4 ∧
    (lit " )\n\t\t").count qmark = 0 ∧
    (InsertSQL t).count qmark = t.count qmark + 4 ∧
    (InsertSQL t).length = t.length + 101 := by
  have hpost : lit "\n\t\t( id, checksum, execution_time_in_millis, applied_at )\n\t\tVALUES\n\t\t( ?, ?, ?, ? )\n\t\t" =
      lit "\n\t\t( id, checksum, execution_time_in_millis, applied_at )" ++
        lit "\n\t\tVALUES\n\t\t( " ++ lit "?, ?, ?, ?" ++ lit " )\n\t\t" := by decide
  have hc : (lit "\n\t\t( id, checksum, execution_time_in_millis, applied_at )\n\t\tVALUES\n\t\t( ?, ?, ?, ? )\n\t\t").count qmark = 4 := by decide
  have hl : (lit "\n\t\t( id, checksum, execution_time_in_millis, applied_at )\n\t\tVALUES\n\t\t( ?, ?, ?, ? )\n\t\t").length = 86 := by decide
  have hc0 : (lit "\n\t\tINSERT INTO ").count qmark = 0 := by decide
  have hl0 : (lit "\n\t\tINSERT INTO ").length = 15 := by decide
  refine ⟨?_, hc0, by decide, by decide, by decide, by decide, ?_, ?_⟩
  · rw [InsertSQL, hpost]
    simp only [List.append_assoc]
  · rw [InsertSQL, List.count_append, List.count_append, hc, hc0]
    omega
  · rw [InsertSQL, List.length_append, List.length_append, hl, hl0]
    omega

/-- Claim C17: `CreateSQL t` is a fixed text around `t`, embedded once as it is
after `CREATE TABLE IF NOT EXISTS `: the four column definitions
`id TEXT NOT NULL`, `checksum TEXT NOT NULL DEFAULT ''`,
`execution_time_in_millis INTEGER NOT NULL DEFAULT 0` and `applied_at DATETIME`
in that order, separated by the only three commas of the text; equal table
names give equal texts. -/
theorem CreateSQL_template (t : GoString) :
    CreateSQL t =
      lit "\n\t\tCREATE TABLE IF NOT EXISTS " ++ t ++ lit " (" ++
        lit "\n\t\t\t" ++ lit "id TEXT NOT NULL" ++ lit "," ++
        lit "\n\t\t\t" ++ lit "checksum TEXT NOT NULL DEFAULT ''" ++ lit "," ++
        lit "\n\t\t\t" ++ lit "execution_time_in_millis INTEGER NOT NULL DEFAULT 0" ++ lit "," ++
        lit "\n\t\t\t" ++ lit "applied_at DATETIME" ++
        lit "\n\t\t);" ∧
    (CreateSQL t).count comma = t.count comma + 3 ∧
    (CreateSQL t).length = t.length + 175 ∧
    ∀ t' : GoString, t' = t → CreateSQL t' = CreateSQL t := by
  have hpost : lit " (\n\t\t\tid TEXT NOT NULL,\n\t\t\tchecksum TEXT NOT NULL DEFAULT '',\n\t\t\texecution_time_in_millis INTEGER NOT NULL DEFAULT 0,\n\t\t\tapplied_at DATETIME\n\t\t);" =
      lit " (" ++
        lit "\n\t\t\t" ++ lit "id TEXT NOT NULL" ++ lit "," ++
        lit "\n\t\t\t" ++ lit "checksum TEXT NOT NULL DEFAULT ''" ++ lit "," ++
        lit "\n\t\t\t" ++ lit "execution_time_in_millis INTEGER NOT NULL DEFAULT 0" ++ lit "," ++
        lit "\n\t\t\t" ++ lit "applied_at DATETIME" ++
        lit "\n\t\t);" := by decide
  have hc : (lit " (\n\t\t\tid TEXT NOT NULL,\n\t\t\tchecksum TEXT NOT NULL DEFAULT '',\n\t\t\texecution_time_in_millis INTEGER NOT NULL DEFAULT 0,\n\t\t\tapplied_at DATETIME\n\t\t);").count comma = 3 := by decide
  have hl : (lit " (\n\t\t\tid TEXT NOT NULL,\n\t\t\tchecksum TEXT NOT NULL DEFAULT '',\n\t\t\texecution_time_in_millis INTEGER NOT NULL DEFAULT 0,\n\t\t\tapplied_at DATETIME\n\t\t);").length = 145 := by decide
  have hc0 : (lit "\n\t\tCREATE TABLE IF NOT EXISTS ").count comma = 0 := by decide
  have hl0 : (lit "\n\t\tCREATE TABLE IF NOT EXISTS ").length = 30 := by decide
  refine ⟨?_, ?_, ?_, ?_⟩
  · rw [CreateSQL, hpost]
    simp only [List.append_assoc]
  · rw [CreateSQL, List.count_append, List.count_append, hc, hc0]
    omega
  · rw [CreateSQL, List.length_append, List.length_append, hl, hl0]
    omega
  · intro t' h
    rw [h]

theorem count_semicolon_QuotedTableName (s t : GoString) :
    (QuotedTableName s t).count semicolon = 0 := by
  rw [List.count_eq_zero]
  intro hmem
  rcases mem_QuotedTableName s t semicolon hmem with h | ⟨r, _, hk, _, hbr⟩
  · exact absurd h (by decide)
  · refine AppendRune_no_ascii r semicolon (by decide) ?_ semicolon hbr rfl
    intro hr
    simp [kept, hr] at hk

/-- Claim C18: with `q` the output of `QuotedTableName`, `CreateSQL q` holds
exactly one `';'`, its last byte, and `InsertSQL q` and the text
`GetAppliedMigrations` passes to `Query` for `q` hold none. -/
theorem statements_semicolons (s t : GoString) :
    (CreateSQL (QuotedTableName s t)).count semicolon = 1 ∧
    (CreateSQL (QuotedTableName s t)).getLast? = some semicolon ∧
    (InsertSQL (QuotedTableName s t)).count semicolon = 0 ∧
    (selectSQL (QuotedTableName s t)).count semicolon = 0 ∧
    (∀ tx : Queryer, ∀ sql ∈ (GetAppliedMigrations tx (QuotedTableName s t)).trace.filterMap
        (fun ev => match ev with
          | Event.query sql => some sql
          | _ => none),
      sql.count semicolon = 0) := by
  have hq := count_semicolon_QuotedTableName s t
  have hsel : (selectSQL (QuotedTableName s t)).count semicolon = 0 := by
    have h1 : (lit "\n\t\tSELECT id, checksum, execution_time_in_millis, applied_at\n\t\tFROM ").count semicolon = 0 := by decide
    have h2 : (lit "\n\t\tORDER BY id ASC\n\t").count semicolon = 0 := by decide
    rw [selectSQL, List.count_append, List.count_append, hq, h1, h2]
  refine ⟨?_, ?_, ?_, hsel, ?_⟩
  · have h1 : (lit "\n\t\tCREATE TABLE IF NOT EXISTS ").count semicolon = 0 := by decide
    have h2 : (lit " (\n\t\t\tid TEXT NOT NULL,\n\t\t\tchecksum TEXT NOT NULL DEFAULT '',\n\t\t\texecution_time_in_millis INTEGER NOT NULL DEFAULT 0,\n\t\t\tapplied_at DATETIME\n\t\t);").count semicolon = 1 := by decide
    rw [CreateSQL, List.count_append, List.count_append, hq, h1, h2]
  · have h2 : lit " (\n\t\t\tid TEXT NOT NULL,\n\t\t\tchecksum TEXT NOT NULL DEFAULT '',\n\t\t\texecution_time_in_millis INTEGER NOT NULL DEFAULT 0,\n\t\t\tapplied_at DATETIME\n\t\t);" =
        lit " (\n\t\t\tid TEXT NOT NULL,\n\t\t\tchecksum TEXT NOT NULL DEFAULT '',\n\t\t\texecution_time_in_millis INTEGER NOT NULL DEFAULT 0,\n\t\t\tapplied_at DATETIME\n\t\t)" ++ [semicolon] := by decide
    rw [CreateSQL, h2, ← List.append_assoc]
    exact List.getLast?_concat _
  · have h1 : (lit "\n\t\tINSERT INTO ").count semicolon = 0 := by decide
    have h2 : (lit "\n\t\t( id, checksum, execution_time_in_millis, applied_at )\n\t\tVALUES\n\t\t( ?, ?, ?, ? )\n\t\t").count semicolon = 0 := by decide
    rw [InsertSQL, List.count_append, List.count_append, hq, h1, h2]
  · intro tx sql hsql
    obtain ⟨ev, hev, hsome⟩ := List.mem_filterMap.1 hsql
    obtain ⟨rest, hrest, honly⟩ := GetAppliedMigrations_trace_shape tx (QuotedTableName s t)
    rw [hrest] at hev
    rcases List.mem_cons.1 hev with h | h
    · subst h
      simp only [Option.some.injEq] at hsome
      rw [← hsome]
      exact hsel
    · rcases honly ev h with h | h | h <;> subst h <;> simp at hsome

/-! ## The quoter: clean and dropped names -/

/-- Decoding the encodings of scalar values gives them back. -/
theorem runes_flatMap_AppendRune (rs : List Nat) (hrs : ∀ r ∈ rs, IsScalar r) :
    runes (rs.flatMap AppendRune) = rs := by
  induction rs with
  | nil => rfl
  | cons r rs ih =>
    simp only [List.flatMap, List.map_cons, List.flatten_cons] at ih ⊢
    rw [runes_AppendRune_append r (hrs r (List.mem_cons_self _ _)),
      ih (fun r hr => hrs r (List.mem_cons_of_mem _ hr))]

/-- Valid UTF-8 is the encoding of its characters. -/
theorem flatMap_AppendRune_runes (s : GoString) (hv : ValidString s = true) :
    (runes s).flatMap AppendRune = s := by
  induction s using range_induction with
  | nil => rfl
  | cons b rest ih =>
    rw [ValidString_cons, Bool.and_eq_true] at hv
    obtain ⟨hd, hv'⟩ := hv
    have henc : AppendRune (DecodeRuneInString (b :: rest)).1 =
        (b :: rest).take (DecodeRuneInString (b :: rest)).2 := by
      rcases decode_encode b rest with h | h
      · rw [h] at hd; simp at hd
      · exact h
    have h1 := (decode_inv b rest).1
    obtain ⟨w, hw⟩ : ∃ w, (DecodeRuneInString (b :: rest)).2 = w + 1 :=
      ⟨_, (Nat.sub_add_cancel h1).symm⟩
    rw [runes_cons]
    simp only [List.flatMap, List.map_cons, List.flatten_cons] at ih ⊢
    rw [ih hv', henc, hw]
    simp

theorem filter_kept_clean (rs : List Nat)
    (hc : ∀ r ∈ rs, IsSpace r = false ∧ r ≠ semicolon) : rs.filter kept = rs := by
  rw [List.filter_eq_self]
  intro r hr
  obtain ⟨h1, h2⟩ := hc r hr
  simp [kept, h1, h2]

theorem QuotedTableName_ne_nil (s t : GoString) (h : s ++ t ≠ []) :
    QuotedTableName s t ≠ [] := by
  rw [QuotedTableName_eq s t h]
  simp

/-- The encoded characters of a clean identifier, read off its quoted form. -/
theorem unescape_inner_clean (s t : GoString) (h : s ++ t ≠ [])
    (hc : ∀ r ∈ runes (s ++ t), IsSpace r = false ∧ r ≠ semicolon) :
    unescape (inner (QuotedTableName s t)) = (runes (s ++ t)).flatMap AppendRune := by
  rw [inner_QuotedTableName s t h, unescape_escaped, filter_kept_clean _ hc]

/-- Claim C19, amended: when neither concatenation holds a whitespace
character or a `';'`, equal outputs of `QuotedTableName` come from equal
sequences of characters, and from equal concatenations when both are valid
UTF-8. -/
theorem QuotedTableName_injective_clean (s1 t1 s2 t2 : GoString)
    (hc1 : ∀ r ∈ runes (s1 ++ t1), IsSpace r = false ∧ r ≠ semicolon)
    (hc2 : ∀ r ∈ runes (s2 ++ t2), IsSpace r = false ∧ r ≠ semicolon)
    (heq : QuotedTableName s1 t1 = QuotedTableName s2 t2) :
    runes (s1 ++ t1) = runes (s2 ++ t2) ∧
    (ValidString (s1 ++ t1) = true → ValidString (s2 ++ t2) = true →
      s1 ++ t1 = s2 ++ t2) := by
  by_cases h1 : s1 ++ t1 = []
  · have h2 : s2 ++ t2 = [] := by
      by_contra h2
      apply QuotedTableName_ne_nil s2 t2 h2
      rw [← heq, QuotedTableName_empty s1 t1 h1]
    rw [h1, h2]
    exact ⟨rfl, fun _ _ => rfl⟩
  · have h2 : s2 ++ t2 ≠ [] := by
      intro h2
      apply QuotedTableName_ne_nil s1 t1 h1
      rw [heq, QuotedTableName_empty s2 t2 h2]
    have hu : (runes (s1 ++ t1)).flatMap AppendRune = (runes (s2 ++ t2)).flatMap AppendRune := by
      rw [← unescape_inner_clean s1 t1 h1 hc1, ← unescape_inner_clean s2 t2 h2 hc2, heq]
    constructor
    · have := congrArg runes hu
      rwa [runes_flatMap_AppendRune _ (runes_scalar _), runes_flatMap_AppendRune _ (runes_scalar _)]
        at this
    · intro hv1 hv2
      rw [flatMap_AppendRune_runes _ hv1, flatMap_AppendRune_runes _ hv2] at hu
      exact hu

/-- The property of claim C19, amended, at `main.` with `t` and `main` with
`.t`. -/
theorem QuotedTableName_injective_clean_witness :
    runes (lit "main." ++ lit "t") = runes (lit "main" ++ lit ".t") ∧
    (ValidString (lit "main." ++ lit "t") = true → ValidString (lit "main" ++ lit ".t") = true →
      lit "main." ++ lit "t" = lit "main" ++ lit ".t") :=
  QuotedTableName_injective_clean (lit "main.") (lit "t") (lit "main") (lit ".t")
    (by decide) (by decide) (by decide)

/-- Claim C19 fails as stated at the schema names `"\xff"` and `"\xfe"` with
empty table names: neither holds whitespace or `';'`, they differ, and both
are quoted to U+FFFD between quotes. -/
theorem QuotedTableName_not_injective_invalid :
    (∀ r ∈ runes (([0xFF] : GoString) ++ []), IsSpace r = false ∧ r ≠ semicolon) ∧
    (∀ r ∈ runes (([0xFE] : GoString) ++ []), IsSpace r = false ∧ r ≠ semicolon) ∧
    QuotedTableName [0xFF] [] = QuotedTableName [0xFE] [] ∧
    ([0xFF] : GoString) ++ [] ≠ [0xFE] ++ [] := by
  decide

/-- Claim C20: when the concatenation is not empty and all its characters are
whitespace or `';'`, `QuotedTableName` returns the two bytes `""`, not the
empty string. -/
theorem QuotedTableName_only_dropped (s t : GoString) (h : s ++ t ≠ [])
    (hall : ∀ r ∈ runes (s ++ t), IsSpace r = true ∨ r = semicolon) :
    QuotedTableName s t = [dquote, dquote] ∧ QuotedTableName s t ≠ [] := by
  have hf : (runes (s ++ t)).filter kept = [] := by
    rw [List.filter_eq_nil_iff]
    intro r hr
    rcases hall r hr with h1 | h1 <;> simp [kept, h1]
  have hq : QuotedTableName s t = [dquote, dquote] := by
    rw [QuotedTableName_eq s t h, hf]
    rfl
  exact ⟨hq, by rw [hq]; simp⟩

/-- The property of claim C20 at schema `" "` and table `";"`. -/
theorem QuotedTableName_only_dropped_witness :
    lit " " ++ lit ";" ≠ [] ∧
    QuotedTableName (lit " ") (lit ";") = lit "\"\"" ∧
    QuotedTableName (lit " ") (lit ";") ≠ [] :=
  ⟨by decide, QuotedTableName_only_dropped (lit " ") (lit ";") (by decide) (by decide)⟩

end Schema
